import Mathlib

/-!
Verification of the filter query language of the ledger repository.

The development shallowly embeds the two source modules that implement the
language:

* the client module (`queryParser.ts`): tokenizer, recursive-descent parser,
  date-range extraction, legacy flattening and the wire serialization of the
  filter tree (`serializeFilterNode` / `buildQueryString`);
* the server module (`TransactionRepository`): deserialization of the wire
  tree, the set-valued evaluator (`evaluateFilterTree` / `evaluateFilterNode`
  and the four store lookups), the line-level matcher
  (`lineMatchesFilter` / `lineMatchesCategoryFilter`) and `findAll`.

JavaScript strings are modelled as `String` / `List Char`; the mutable
tokenizer/parser cursors become explicit positions threaded through pure
functions.  Loops and the mutual recursion of the parser are given a `Nat`
fuel argument that strictly decreases on every step; every loop iteration of
the source consumes at least one token/character, so the generous fuel bounds
used below are never exhausted on real inputs and the fueled functions compute
exactly what the source computes.
-/

/-- JavaScript `\s` (ASCII part): the whitespace characters the tokenizer and
the date-range regex treat as insignificant.  (Unicode spaces such as NBSP are
outside the modelled character set.) -/
def jsSpace (c : Char) : Bool :=
  c = ' ' || c = '\t' || c = '\n' || c = '\r' || c = '\x0b' || c = '\x0c'

/-- ASCII lower-casing, modelling `toLowerCase` / the `i` regex flag on the
ASCII keywords and field names the grammar uses. -/
def lowAscii (c : Char) : Char :=
  if 'A' ≤ c ∧ c ≤ 'Z' then Char.ofNat (c.toNat + 32) else c

/-- Tokens of the query language (`Token` in `queryParser.ts`).  The `field`
of a filter token is the lower-cased captured field name. -/
inductive Token where
  | lparen
  | rparen
  | and
  | or
  | filter (field : String) (value : String) (isEmpty : Bool)
  | eof
deriving DecidableEq, Repr

/-- `query.substring(i, i+3).toLowerCase() === 'and'` together with the word
boundary check (`i + 3 >= query.length || /\s/.test(query[i + 3])`).
Returns the remaining characters when the keyword is recognized. -/
def matchKwAnd : List Char → Option (List Char)
  | c0 :: c1 :: c2 :: rest =>
    if lowAscii c0 = 'a' ∧ lowAscii c1 = 'n' ∧ lowAscii c2 = 'd' ∧
        (rest = [] ∨ jsSpace (rest.headD ' ') = true) then
      some rest
    else
      none
  | _ => none

/-- `query.substring(i, i+2).toLowerCase() === 'or'` with its word boundary
check. -/
def matchKwOr : List Char → Option (List Char)
  | c0 :: c1 :: rest =>
    if lowAscii c0 = 'o' ∧ lowAscii c1 = 'r' ∧
        (rest = [] ∨ jsSpace (rest.headD ' ') = true) then
      some rest
    else
      none
  | _ => none

/-- Case-insensitive literal match of `pat` (given lower-cased) against the
front of `cs`; returns the rest on success.  Models the anchored literal
parts of the tokenizer's and date-range regexes. -/
def stripCI : List Char → List Char → Option (List Char)
  | [], cs => some cs
  | _ :: _, [] => none
  | p :: ps, c :: cs => if lowAscii c = p then stripCI ps cs else none

/-- The field alternation `(category|tag|account)` followed by `:` of the
filter-token regex, tried in the regex's alternation order.  The captured
field is lower-cased (`filterMatch[1].toLowerCase()`). -/
def matchField (cs : List Char) : Option (String × List Char) :=
  match stripCI "category:".toList cs with
  | some rest => some ("category", rest)
  | none =>
    match stripCI "tag:".toList cs with
    | some rest => some ("tag", rest)
    | none =>
      match stripCI "account:".toList cs with
      | some rest => some ("account", rest)
      | none => none

/-- The `\S+` alternative of the value part of the filter regex: a maximal
nonempty run of non-whitespace characters. -/
def matchUnquoted (cs : List Char) : Option (List Char × List Char) :=
  let w := cs.takeWhile (fun c => !jsSpace c)
  if w.isEmpty then none else some (w, cs.dropWhile (fun c => !jsSpace c))

/-- The value alternation `("([^"]+)"|(\S+))`: first a double-quoted nonempty
run of non-quote characters; if that alternative cannot match (no opening
quote, empty quoted body, or missing closing quote) the regex backtracks to
`\S+` starting at the same position. -/
def matchValue (cs : List Char) : Option (List Char × List Char) :=
  match cs with
  | '"' :: cs2 =>
    let inner := cs2.takeWhile (fun c => c ≠ '"')
    if inner.isEmpty then
      matchUnquoted cs
    else
      match cs2.dropWhile (fun c => c ≠ '"') with
      | '"' :: rest => some (inner, rest)
      | _ => matchUnquoted cs
  | _ => matchUnquoted cs

/-- The whole anchored filter-token regex
`^(category|tag|account):("([^"]+)"|(\S+))` (case-insensitive), producing the
token exactly as the source does: captured value compared literally to `-`
to set `isEmpty`. -/
def tryFilterTok (cs : List Char) : Option (Token × List Char) :=
  match matchField cs with
  | none => none
  | some (f, rest) =>
    match matchValue rest with
    | none => none
    | some (v, rest2) =>
      some (.filter f (String.mk v) (decide (String.mk v = "-")), rest2)

/-- One pass of `Tokenizer.tokenize`'s while loop, fueled.  Each iteration of
the source loop consumes at least one character, so fuel `length + 1` (used
by `tokenize` below) is never exhausted. -/
def tokenizeSteps : Nat → List Char → List Token
  | 0, _ => [.eof]
  | fuel + 1, cs =>
    match cs.dropWhile jsSpace with
    | [] => [.eof]
    | '(' :: rest => .lparen :: tokenizeSteps fuel rest
    | ')' :: rest => .rparen :: tokenizeSteps fuel rest
    | c :: rest =>
      match matchKwAnd (c :: rest) with
      | some r => .and :: tokenizeSteps fuel r
      | none =>
        match matchKwOr (c :: rest) with
        | some r => .or :: tokenizeSteps fuel r
        | none =>
          match tryFilterTok (c :: rest) with
          | some (t, r) => t :: tokenizeSteps fuel r
          | none => tokenizeSteps fuel rest

/-- `Tokenizer.tokenize`: token list of a raw query string, ending in `eof`. -/
def tokenize (q : String) : List Token :=
  tokenizeSteps (q.length + 1) q.toList

/-- The client-side filter expression tree (`FilterNode` in
`queryParser.ts`), restricted to the shapes the parser actually produces:
filter leaves carry `field`, `value`, `isEmpty`; group nodes carry an
`operator` string (`"and"` or `"or"`) and a children list. -/
inductive CNode where
  | filter (field : String) (value : String) (isEmpty : Bool)
  | group (operator : String) (children : List CNode)

/-- `tokens[pos]`, with the parser's guarantee that reading past the end
yields `eof` (`peek` returns `{ type: 'eof' }` and `advance` never moves past
the final `eof`). -/
def currentTok (ts : List Token) (pos : Nat) : Token :=
  ts.getD pos .eof

mutual

/-- `Parser.parseTerm`: a filter leaf, a parenthesized expression (missing
`)` tolerated), or — error case — an empty `and` group, consuming nothing. -/
def parseTerm : Nat → List Token → Nat → CNode × Nat
  | 0, _, pos => (.group "and" [], pos)
  | fuel + 1, ts, pos =>
    match currentTok ts pos with
    | .lparen =>
      let ep := parseOrExpression fuel ts (pos + 1)
      match currentTok ts ep.2 with
      | .rparen => (ep.1, ep.2 + 1)
      | _ => (ep.1, ep.2)
    | .filter f v e => (.filter f v e, pos + 1)
    | _ => (.group "and" [], pos)
  termination_by structural fuel => fuel

/-- `Parser.parseAndExpression`: a term followed by the `('and' term)*`
loop. -/
def parseAndExpression : Nat → List Token → Nat → CNode × Nat
  | 0, _, pos => (.group "and" [], pos)
  | fuel + 1, ts, pos =>
    let lp := parseTerm fuel ts pos
    parseAndLoop fuel ts lp.1 lp.2
  termination_by structural fuel => fuel

/-- The `while (current == 'and')` loop of `parseAndExpression`, flattening
consecutive terms into one `and` group. -/
def parseAndLoop : Nat → List Token → CNode → Nat → CNode × Nat
  | 0, _, left, pos => (left, pos)
  | fuel + 1, ts, left, pos =>
    match currentTok ts pos with
    | .and =>
      let rp := parseTerm fuel ts (pos + 1)
      let newLeft :=
        match left with
        | .group op cs =>
          if op = "and" then .group "and" (cs ++ [rp.1])
          else .group "and" [.group op cs, rp.1]
        | l => .group "and" [l, rp.1]
      parseAndLoop fuel ts newLeft rp.2
    | _ => (left, pos)
  termination_by structural fuel => fuel

/-- `Parser.parseOrExpression`: an and-expression followed by the
`('or' andExpression)*` loop. -/
def parseOrExpression : Nat → List Token → Nat → CNode × Nat
  | 0, _, pos => (.group "and" [], pos)
  | fuel + 1, ts, pos =>
    let lp := parseAndExpression fuel ts pos
    parseOrLoop fuel ts lp.1 lp.2
  termination_by structural fuel => fuel

/-- The `while (current == 'or')` loop of `parseOrExpression`, flattening
consecutive and-expressions into one `or` group. -/
def parseOrLoop : Nat → List Token → CNode → Nat → CNode × Nat
  | 0, _, left, pos => (left, pos)
  | fuel + 1, ts, left, pos =>
    match currentTok ts pos with
    | .or =>
      let rp := parseAndExpression fuel ts (pos + 1)
      let newLeft :=
        match left with
        | .group op cs =>
          if op = "or" then .group "or" (cs ++ [rp.1])
          else .group "or" [.group op cs, rp.1]
        | l => .group "or" [l, rp.1]
      parseOrLoop fuel ts newLeft rp.2
    | _ => (left, pos)
  termination_by structural fuel => fuel

end

/-- Fuel bound for a full parse: every recursive call either consumes a token
or moves (with strictly decreasing fuel) through the fixed
`or → and → term` chain, so `3 * length + 9` steps always suffice. -/
def parseFuel (ts : List Token) : Nat :=
  3 * ts.length + 9

/-- `Parser.parse`: `undefined` on an immediately-`eof` stream, otherwise the
result of `parseOrExpression` — with no check that the whole stream was
consumed. -/
def parseTokens (ts : List Token) : Option CNode :=
  match currentTok ts 0 with
  | .eof => none
  | _ => some (parseOrExpression (parseFuel ts) ts 0).1

/-- Legacy flat filter (the `FilterExpression` shape that
`flattenFilterTree` produces: `field`, `value`, `isEmpty`). -/
structure FilterExpression where
  field : String
  value : String
  isEmpty : Bool
deriving DecidableEq, Repr

mutual

/-- `flattenFilterTree` on a present node: pre-order list of the tree's
leaves. -/
def flattenNode : CNode → List FilterExpression
  | .filter f v e => [⟨f, v, e⟩]
  | .group _ cs => flattenNodeList cs

/-- The `for (const child of node.children)` accumulation of
`flattenFilterTree`. -/
def flattenNodeList : List CNode → List FilterExpression
  | [] => []
  | c :: cs => flattenNode c ++ flattenNodeList cs

end

/-- `flattenFilterTree` (the `node?` entry point). -/
def flattenFilterTree : Option CNode → List FilterExpression
  | none => []
  | some n => flattenNode n

/-- The value `new Date(year, month - 1, day)` is constructed from, as a
plain triple (the source only passes integer components, for which the JS
`Date` constructor never yields `NaN`; calendar rollover is outside the
modelled scope).  `month` is kept 1-based. -/
structure SimpleDate where
  year : Int
  month : Int
  day : Int
deriving DecidableEq, Repr

/-- `parseInt(part, 10)` for the digit-run strings produced by the date
regex. -/
def jsParseIntDigits (s : String) : Option Int :=
  if s.toList ≠ [] ∧ s.toList.all (fun c => '0' ≤ c ∧ c ≤ '9') then
    some (Int.ofNat (s.toList.foldl (fun n c => n * 10 + (c.toNat - '0'.toNat)) 0))
  else
    none

/-- `parseDate`: split on `/`, require three components, 2-digit years pivot
at 50 into 19xx/20xx. -/
def parseDate (s : String) : Option SimpleDate :=
  match s.splitOn "/" with
  | [p1, p2, p3] =>
    match jsParseIntDigits p1, jsParseIntDigits p2, jsParseIntDigits p3 with
    | some month, some day, some year =>
      let year := if year < 100 then year + (if year < 50 then 2000 else 1900) else year
      some ⟨year, month, day⟩
    | _, _, _ => none
  | _ => none

/-- `\d{1,2}` followed by `/` inside the date pattern: a digit run of length
one or two (a longer run cannot be followed by `/`, so the regex fails on
it), then the slash. -/
def matchMonthDay (cs : List Char) : Option (List Char) :=
  let r := cs.takeWhile (fun c => '0' ≤ c ∧ c ≤ '9')
  if r.length = 1 ∨ r.length = 2 then
    match cs.drop r.length with
    | '/' :: rest => some rest
    | _ => none
  else none

/-- `\d{2,4}` when `\s+` follows in the pattern (the first date): only the
full digit run can be accepted, and it must have length two to four. -/
def matchYearMid (cs : List Char) : Option (List Char) :=
  let r := cs.takeWhile (fun c => '0' ≤ c ∧ c ≤ '9')
  if 2 ≤ r.length ∧ r.length ≤ 4 then some (cs.drop r.length) else none

/-- `\d{2,4}` at the end of the pattern (the second date): greedily take up
to four digits, at least two. -/
def matchYearEnd (cs : List Char) : Option (List Char) :=
  let r := cs.takeWhile (fun c => '0' ≤ c ∧ c ≤ '9')
  if 2 ≤ r.length then some (cs.drop (min 4 r.length)) else none

/-- `\s+`. -/
def skipSpaces1 (cs : List Char) : Option (List Char) :=
  let r := cs.takeWhile jsSpace
  if r.isEmpty then none else some (cs.dropWhile jsSpace)

/-- The date-range regex
`between\s+(\d{1,2}\/\d{1,2}\/\d{2,4})\s+and\s+(\d{1,2}\/\d{1,2}\/\d{2,4})`
(case-insensitive), anchored at the front of `cs`.  Returns the number of
characters matched and the two captured date strings. -/
def matchBetweenAt (cs : List Char) : Option (Nat × String × String) := do
  let r0 ← stripCI "between".toList cs
  let r1 ← skipSpaces1 r0
  let r2 ← matchMonthDay r1
  let r3 ← matchMonthDay r2
  let r4 ← matchYearMid r3
  let d1 := r1.take (r1.length - r4.length)
  let r5 ← skipSpaces1 r4
  let r6 ← stripCI "and".toList r5
  let r7 ← skipSpaces1 r6
  let r8 ← matchMonthDay r7
  let r9 ← matchMonthDay r8
  let r10 ← matchYearEnd r9
  let d2 := r7.take (r7.length - r10.length)
  pure (cs.length - r10.length, String.mk d1, String.mk d2)

/-- Leftmost match of the date-range regex (`String.prototype.match` scans
left to right): returns start index, match length and the two captures. -/
def findBetween : List Char → Option (Nat × Nat × String × String)
  | [] => none
  | c :: cs =>
    match matchBetweenAt (c :: cs) with
    | some (len, d1, d2) => some (0, len, d1, d2)
    | none =>
      match findBetween cs with
      | some (i, len, d1, d2) => some (i + 1, len, d1, d2)
      | none => none

/-- JS `String.prototype.trim`: strip leading and trailing whitespace.
(Implemented directly on the character list so that it is kernel-computable.) -/
def jsTrim (s : String) : String :=
  String.mk (((s.toList.dropWhile jsSpace).reverse.dropWhile jsSpace).reverse)

/-- `ParsedQuery` (the legacy `filters`/`operator` fields included). -/
structure ParsedQuery where
  filterTree : Option CNode
  dateRange : Option (SimpleDate × SimpleDate)
  filters : List FilterExpression
  operator : Option String

/-- The date-range extraction step of `parseQuery`: when the regex matches,
the matched substring is removed (its leftmost match position is also the
first occurrence of the matched text, which is what `String.replace`
removes) and the string trimmed, whether or not the two dates parse; the
range itself is kept only when both dates parse. -/
def extractDateRange (q : String) : Option (SimpleDate × SimpleDate) × String :=
  match findBetween q.toList with
  | none => (none, q)
  | some (idx, len, d1, d2) =>
    let newQ := jsTrim (String.mk (q.toList.take idx ++ q.toList.drop (idx + len)))
    match parseDate d1, parseDate d2 with
    | some f, some t => (some (f, t), newQ)
    | _, _ => (none, newQ)

/-- `parseQuery`: blank input yields no filters; otherwise the date range is
extracted first, the remainder tokenized and parsed, and the legacy flat
list derived from the tree.  (The source's `try/catch` never fires: every
step is total.) -/
def parseQuery (query : String) : ParsedQuery :=
  if jsTrim query = "" then
    ⟨none, none, [], none⟩
  else
    let dr := extractDateRange query
    let tree := parseTokens (tokenize dr.2)
    ⟨tree, dr.1, flattenFilterTree tree, some "and"⟩

/-- The wire-level filter tree: what `serializeFilterNode` emits as JSON and
what the server's `JSON.parse` hands (unvalidated) to the evaluator.  All
fields are optional strings because the server performs no validation — a
directly supplied `filter_expr` may carry a missing or unknown `field` or
`operator`.  A missing `children` array behaves exactly like an empty one
(both fail the `children && children.length > 0` guard), so it is modelled
as `[]`. -/
inductive SNode where
  | filter (field : Option String) (value : Option String)
  | group (operator : Option String) (children : List SNode)

mutual

/-- `serializeFilterNode`: leaves carry `{field, value}` with the sentinel
re-encoded as `~empty~` when `isEmpty` is set; groups carry
`{operator, children}`.  `JSON.stringify` followed by the server's
`JSON.parse` is the identity on this structure, so the wire form is modelled
by the structure itself. -/
def serializeFilterNode : CNode → SNode
  | .filter f v e => .filter (some f) (some (if e then "~empty~" else v))
  | .group op cs => .group (some op) (serializeNodeList cs)

/-- `node.children?.map(serializeFilterNode) || []`. -/
def serializeNodeList : List CNode → List SNode
  | [] => []
  | c :: cs => serializeFilterNode c :: serializeNodeList cs

end

mutual

/-- The client tree as the server evaluator would see it if handed directly:
the evaluator reads only `type`, `field`, `value`, `operator` and `children`
(never `isEmpty`), so a client node denotes the wire node with the same
field, value, operator and children. -/
def injectClientNode : CNode → SNode
  | .filter f v _ => .filter (some f) (some v)
  | .group op cs => .group (some op) (injectClientNodeList cs)

/-- `injectClientNode` mapped over a children list. -/
def injectClientNodeList : List CNode → List SNode
  | [] => []
  | c :: cs => injectClientNode c :: injectClientNodeList cs

end


/-! ## Server side: store model and `TransactionRepository` -/

/-- `[...new Set(list)]`: deduplication preserving first occurrences
(JS `Set` iterates in insertion order). -/
def dedupFirst (l : List Nat) : List Nat :=
  l.foldl (fun acc x => if x ∈ acc then acc else acc ++ [x]) []

/-- `LIKE '%' || v || '%'` on a non-null column: SQLite `LIKE` is
case-insensitive for ASCII, so this is case-insensitive substring
containment.  (Values containing the SQL wildcards `%`/`_` are outside the
modelled scope; no claim involves them.) -/
def likeContains (v s : String) : Bool :=
  decide (List.IsInfix (v.toList.map lowAscii) (s.toList.map lowAscii))

/-- A row of `transactions` (the columns `findAll` reads; `id` and
`account_id` are non-null integers in the schema, `counterparty` and
`reference` are nullable text, `status` non-null text,
`transaction_date` a non-null timestamp modelled as `Int`). -/
structure TransactionRow where
  id : Nat
  transaction_date : Int
  account_id : Nat
  counterparty : Option String
  reference : Option String
  status : String
deriving DecidableEq, Repr

/-- A row of `transaction_lines` (`category_id` is nullable). -/
structure LineRow where
  id : Nat
  transaction_id : Nat
  category_id : Option Nat
deriving DecidableEq, Repr

/-- A row of `categories`. -/
structure CategoryRow where
  id : Nat
  name : String
deriving DecidableEq, Repr

/-- A row of `tags`. -/
structure TagRow where
  id : Nat
  name : String
  color : Option String
deriving DecidableEq, Repr

/-- A row of `accounts`. -/
structure AccountRow where
  id : Nat
  name : String
deriving DecidableEq, Repr

/-- A row of `transaction_tags`. -/
structure TransactionTagRow where
  transaction_id : Nat
  tag_id : Nat
deriving DecidableEq, Repr

/-- The relational store as the repository queries it. -/
structure Database where
  transactions : List TransactionRow
  transactionLines : List LineRow
  categories : List CategoryRow
  tags : List TagRow
  accounts : List AccountRow
  transactionTags : List TransactionTagRow
deriving DecidableEq, Repr

/-- `getCategoryTransactionIds`: `~empty~` resolves to transactions having a
line with null `category_id`; otherwise substring-match category names, then
transactions having a line referencing a matched category.  (The source's
defensive non-null filter on `categoryIds` is the identity here because the
schema's primary keys are non-null.) -/
def getCategoryTransactionIds (db : Database) (categoryValue : String) : List Nat :=
  if categoryValue = "~empty~" then
    dedupFirst ((db.transactionLines.filter (fun l => l.category_id.isNone)).map
      (fun l => l.transaction_id))
  else
    let matchingCategories := db.categories.filter (fun c => likeContains categoryValue c.name)
    if matchingCategories.length = 0 then []
    else
      let categoryIds := matchingCategories.map (fun c => c.id)
      if categoryIds.length = 0 then []
      else
        let linesWithCategory := db.transactionLines.filter (fun l =>
          match l.category_id with
          | some cid => categoryIds.contains cid
          | none => false)
        dedupFirst (linesWithCategory.map (fun l => l.transaction_id))

/-- `getTagTransactionIds`: `~empty~` resolves to transactions with no
`transaction_tags` association; otherwise substring-match tag names, then
transactions linked to a matched tag. -/
def getTagTransactionIds (db : Database) (tagValue : String) : List Nat :=
  if tagValue = "~empty~" then
    let txIdsWithTags := db.transactionTags.map (fun t => t.transaction_id)
    (db.transactions.map (fun t => t.id)).filter (fun i => !txIdsWithTags.contains i)
  else
    let matchingTags := db.tags.filter (fun t => likeContains tagValue t.name)
    if matchingTags.length = 0 then []
    else
      let tagIds := matchingTags.map (fun t => t.id)
      let txWithTag := db.transactionTags.filter (fun tt => tagIds.contains tt.tag_id)
      dedupFirst (txWithTag.map (fun tt => tt.transaction_id))

/-- `getAccountTransactionIds`: substring-match account names, then
transactions whose `account_id` references a matched account.  (No
`~empty~` branch exists for accounts.) -/
def getAccountTransactionIds (db : Database) (accountValue : String) : List Nat :=
  let matchingAccounts := db.accounts.filter (fun a => likeContains accountValue a.name)
  if matchingAccounts.length = 0 then []
  else
    let accIds := matchingAccounts.map (fun a => a.id)
    (db.transactions.filter (fun t => accIds.contains t.account_id)).map (fun t => t.id)

/-- `getCounterpartyTransactionIds`: `~empty~` resolves to transactions with
null `counterparty`; otherwise case-insensitive substring match on the
denormalized `counterparty` column (`NULL LIKE …` is not true). -/
def getCounterpartyTransactionIds (db : Database) (counterpartyValue : String) : List Nat :=
  if counterpartyValue = "~empty~" then
    (db.transactions.filter (fun t => t.counterparty.isNone)).map (fun t => t.id)
  else
    (db.transactions.filter (fun t =>
      match t.counterparty with
      | some c => likeContains counterpartyValue c
      | none => false)).map (fun t => t.id)

/-- `evaluateFilterNode`: dispatch on `node.field` (`node.value || ''` is the
value with a missing one defaulted to the empty string); any other —
missing, misspelled or unknown — field resolves to the empty ID list. -/
def evaluateFilterNode (db : Database) (field : Option String) (value : Option String) : List Nat :=
  if field = some "category" then getCategoryTransactionIds db (value.getD "")
  else if field = some "tag" then getTagTransactionIds db (value.getD "")
  else if field = some "account" then getAccountTransactionIds db (value.getD "")
  else if field = some "counterparty" then getCounterpartyTransactionIds db (value.getD "")
  else []

mutual

/-- `evaluateFilterTree`: leaves via `evaluateFilterNode`; a group with at
least one child resolves to the insertion-ordered union (`operator === 'or'`)
or the left fold of intersections (any other operator) of its children's
results; every other node — in particular a group with no children — resolves
to `[]`. -/
def evaluateFilterTree (db : Database) : SNode → List Nat
  | .filter f v => evaluateFilterNode db f v
  | .group op cs =>
    if cs.length > 0 then
      let childResults := evalChildren db cs
      if op = some "or" then
        dedupFirst childResults.flatten
      else
        match childResults with
        | [] => []
        | r :: rs => rs.foldl (fun result ids => result.filter (fun i => ids.contains i)) r
    else []

/-- `node.children.map(child => this.evaluateFilterTree(child))`. -/
def evalChildren (db : Database) : List SNode → List (List Nat)
  | [] => []
  | c :: cs => evaluateFilterTree db c :: evalChildren db cs

end

/-- `lineMatchesCategoryFilter`: `~empty~` matches lines with null
`category_id`; otherwise the line's category reference must be to a category
whose name contains the value. -/
def lineMatchesCategoryFilter (db : Database) (line : LineRow) (categoryValue : String) : Bool :=
  if categoryValue = "~empty~" then
    line.category_id.isNone
  else
    let categoryIds := (db.categories.filter (fun c => likeContains categoryValue c.name)).map
      (fun c => c.id)
    match line.category_id with
    | some cid => categoryIds.contains cid
    | none => false

mutual

/-- `lineMatchesFilter`: only `category` leaves are meaningful at line
granularity — every other leaf field returns `true`; groups with at least
one child are `any` (`or`) / `all` (any other operator) over the children;
anything else — in particular an empty group — is `false`. -/
def lineMatchesFilter (db : Database) (line : LineRow) : SNode → Bool
  | .filter f v =>
    if f = some "category" then lineMatchesCategoryFilter db line (v.getD "")
    else true
  | .group op cs =>
    if cs.length > 0 then
      let childResults := lineChildren db line cs
      if op = some "or" then childResults.any (fun r => r)
      else childResults.all (fun r => r)
    else false

/-- `node.children.map(child => this.lineMatchesFilter(line, child))`. -/
def lineChildren (db : Database) (line : LineRow) : List SNode → List Bool
  | [] => []
  | c :: cs => lineMatchesFilter db line c :: lineChildren db line cs

end

/-- The `TransactionFilter` options record of `findAll` (fields the
destructuring reads; `counterparty` is present on the interface but unused
by `findAll`). -/
structure TransactionFilter where
  page : Option Nat := none
  limit : Option Nat := none
  sort : Option String := none
  order : Option String := none
  status : Option String := none
  from_date : Option Int := none
  to_date : Option Int := none
  category : Option String := none
  tag : Option String := none
  account : Option String := none
  counterparty : Option String := none
  line_level_filter : Bool := false
  filter_expr : Option String := none

/-- JS truthiness of an optional string parameter (`undefined` and the empty
string are falsy). -/
def truthy : Option String → Bool
  | some s => !(s == "")
  | none => false

/-- The tag rows `findAll` attaches to one returned transaction. -/
structure TagInfo where
  id : Nat
  name : String
  color : Option String
deriving DecidableEq, Repr

/-- One element of `findAll`'s `items`: the transaction row with its
(line-filtered) lines and its tags. -/
structure TransactionWithLinesAndTags where
  transaction : TransactionRow
  lines : List LineRow
  tags : List TagInfo
deriving DecidableEq, Repr

/-- `findAll`'s `meta`. -/
structure ResultMeta where
  total : Nat
  page : Nat
  limit : Nat
  pages : Nat
deriving DecidableEq, Repr

/-- `findAll`'s return shape. -/
structure FindAllResult where
  items : List TransactionWithLinesAndTags
  meta : ResultMeta
deriving DecidableEq, Repr

/-- `NULL`-first ascending order on the nullable `reference` column (SQLite
`ORDER BY` sorts `NULL` before text ascending). -/
def refLe (a b : Option String) : Bool :=
  match a, b with
  | none, _ => true
  | some _, none => false
  | some x, some y => decide (x ≤ y)

/-- Ascending comparison for the selected `ORDER BY` column
(`sort === 'reference' ? reference : transaction_date`). -/
def txAscLe (sortCol : String) (a b : TransactionRow) : Bool :=
  if sortCol = "reference" then refLe a.reference b.reference
  else decide (a.transaction_date ≤ b.transaction_date)

/-- The applied comparator: `order === 'desc' ? desc : asc`. -/
def txCmpLe (sortCol ord : String) (a b : TransactionRow) : Bool :=
  if ord = "desc" then txAscLe sortCol b a else txAscLe sortCol a b

/-- Insertion step of the deterministic model of `ORDER BY`. -/
def insertByLe {α : Type} (le : α → α → Bool) (x : α) : List α → List α
  | [] => [x]
  | y :: ys => if le x y then x :: y :: ys else y :: insertByLe le x ys

/-- Deterministic model of `ORDER BY` (ties keep a fixed order; SQL leaves
tie order unspecified and no claim depends on it). -/
def sortByLe {α : Type} (le : α → α → Bool) : List α → List α
  | [] => []
  | x :: xs => insertByLe le x (sortByLe le xs)

/-- `Math.ceil(total / limit)` on naturals (for `limit = 0` JS would yield
`Infinity`; the model yields `0` — no claim touches a zero limit). -/
def jsCeilDiv (a b : Nat) : Nat :=
  (a + b - 1) / b

/-- The shared tail of `findAll` once the transaction-level conditions are
settled: apply the `WHERE` conjunction, `ORDER BY`/`LIMIT`/`OFFSET`, count
the total, and attach to each selected transaction its lines (optionally
line-level filtered, the filter tree taking precedence over the legacy
`category` parameter) and its tags via the `transaction_tags ⋈ tags` join. -/
def findAllFinish (db : Database) (filterTree : Option SNode) (category : Option String)
    (line_level_filter : Bool) (conds : List (TransactionRow → Bool))
    (page limit offset : Nat) (sortCol ord : String) : FindAllResult :=
  let whereP : TransactionRow → Bool := fun t => conds.all (fun c => c t)
  let sorted := sortByLe (txCmpLe sortCol ord) (db.transactions.filter whereP)
  let pageItems := (sorted.drop offset).take limit
  let total := (db.transactions.filter whereP).length
  let itemsWithLinesAndTags := pageItems.map (fun t =>
    let lines0 := db.transactionLines.filter (fun l => l.transaction_id == t.id)
    let lines :=
      if line_level_filter then
        match filterTree with
        | some tree => lines0.filter (fun l => lineMatchesFilter db l tree)
        | none =>
          match category with
          | some c =>
            if c = "" then lines0
            else if c = "~empty~" then lines0.filter (fun l => l.category_id.isNone)
            else
              let categoryIds := (db.categories.filter (fun cat => likeContains c cat.name)).map
                (fun cat => cat.id)
              lines0.filter (fun l =>
                match l.category_id with
                | some cid => categoryIds.contains cid
                | none => false)
          | none => lines0
      else lines0
    let tagInfos := (db.transactionTags.filter (fun tt => tt.transaction_id == t.id)).flatMap
      (fun tt => (db.tags.filter (fun tg => tg.id == tt.tag_id)).map
        (fun tg => TagInfo.mk tt.tag_id tg.name tg.color))
    TransactionWithLinesAndTags.mk t lines tagInfos)
  ⟨itemsWithLinesAndTags, ⟨total, page, limit, jsCeilDiv total limit⟩⟩

/-- `TransactionRepository.findAll`.  `dec` models the platform's
`JSON.parse` at the `filter_expr` boundary: `none` when parsing throws (the
source catches the exception and leaves the tree undefined).  The legacy
branch's category/tag blocks textually duplicate `getCategoryTransactionIds`
and `getTagTransactionIds`, and each of its early returns fires exactly when
the corresponding ID list is empty, so they are expressed through those
functions. -/
def findAll (dec : String → Option SNode) (db : Database) (f : TransactionFilter) :
    FindAllResult :=
  let page := f.page.getD 1
  let limit := f.limit.getD 50
  let sortCol := f.sort.getD "transaction_date"
  let ord := f.order.getD "desc"
  let offset := (page - 1) * limit
  let emptyRes : FindAllResult := ⟨[], ⟨0, page, limit, 0⟩⟩
  let filterTree : Option SNode :=
    match f.filter_expr with
    | some s => if s = "" then none else dec s
    | none => none
  let condsStatus : List (TransactionRow → Bool) :=
    match f.status with
    | some s => if s = "" then [] else [fun (t : TransactionRow) => t.status == s]
    | none => []
  let condsFrom : List (TransactionRow → Bool) :=
    match f.from_date with
    | some d => [fun (t : TransactionRow) => decide (d ≤ t.transaction_date)]
    | none => []
  let condsTo : List (TransactionRow → Bool) :=
    match f.to_date with
    | some d => [fun (t : TransactionRow) => decide (t.transaction_date ≤ d)]
    | none => []
  let conds0 : List (TransactionRow → Bool) := condsStatus ++ condsFrom ++ condsTo
  match filterTree with
  | some tree =>
    let filteredTransactionIds := evaluateFilterTree db tree
    if filteredTransactionIds.length = 0 then emptyRes
    else
      findAllFinish db (some tree) f.category f.line_level_filter
        (conds0 ++ [fun (t : TransactionRow) => filteredTransactionIds.contains t.id]) page limit offset sortCol ord
  | none =>
    let contA : Option (List (TransactionRow → Bool)) :=
      if truthy f.account then
        let matchingAccounts := db.accounts.filter
          (fun a => likeContains (f.account.getD "") a.name)
        if matchingAccounts.length > 0 then
          some (conds0 ++ [fun (t : TransactionRow) => (matchingAccounts.map (fun a => a.id)).contains t.account_id])
        else none
      else some conds0
    match contA with
    | none => emptyRes
    | some conds1 =>
      let catIds : Option (List Nat) :=
        if truthy f.category then some (getCategoryTransactionIds db (f.category.getD ""))
        else none
      if catIds = some [] then emptyRes
      else
        let tagIds : Option (List Nat) :=
          if truthy f.tag then some (getTagTransactionIds db (f.tag.getD ""))
          else none
        if tagIds = some [] then emptyRes
        else
          match catIds, tagIds with
          | some cIds, some tIds =>
            let intersectionIds := cIds.filter (fun i => tIds.contains i)
            if intersectionIds.length > 0 then
              findAllFinish db none f.category f.line_level_filter
                (conds1 ++ [fun (t : TransactionRow) => intersectionIds.contains t.id]) page limit offset sortCol ord
            else emptyRes
          | some cIds, none =>
            findAllFinish db none f.category f.line_level_filter
              (conds1 ++ [fun (t : TransactionRow) => cIds.contains t.id]) page limit offset sortCol ord
          | none, some tIds =>
            findAllFinish db none f.category f.line_level_filter
              (conds1 ++ [fun (t : TransactionRow) => tIds.contains t.id]) page limit offset sortCol ord
          | none, none =>
            findAllFinish db none f.category f.line_level_filter
              conds1 page limit offset sortCol ord

/-! ## Helper lemmas -/

theorem mem_foldl_insertNoDup (l : List Nat) :
    ∀ (acc : List Nat) (x : Nat),
      x ∈ l.foldl (fun acc x => if x ∈ acc then acc else acc ++ [x]) acc ↔
        x ∈ acc ∨ x ∈ l := by
  induction l with
  | nil => simp
  | cons a l ih =>
    intro acc x
    simp only [List.foldl_cons, ih]
    by_cases ha : a ∈ acc
    · simp only [if_pos ha, List.mem_cons]
      constructor
      · rintro (h | h)
        · exact Or.inl h
        · exact Or.inr (Or.inr h)
      · rintro (h | rfl | h)
        · exact Or.inl h
        · exact Or.inl ha
        · exact Or.inr h
    · simp only [if_neg ha, List.mem_append, List.mem_singleton, List.mem_cons]
      tauto

theorem mem_dedupFirst (l : List Nat) (x : Nat) : x ∈ dedupFirst l ↔ x ∈ l := by
  simp [dedupFirst, mem_foldl_insertNoDup]

theorem mem_interFold (rs : List (List Nat)) :
    ∀ (r : List Nat) (x : Nat),
      x ∈ rs.foldl (fun result ids => result.filter (fun i => ids.contains i)) r ↔
        x ∈ r ∧ ∀ ids ∈ rs, x ∈ ids := by
  induction rs with
  | nil => simp
  | cons ids rs ih =>
    intro r x
    have hc : ∀ (ids : List Nat) (y : Nat), (ids.contains y = true) ↔ y ∈ ids :=
      fun ids y => List.elem_iff
    simp only [List.foldl_cons, ih, List.mem_filter, hc, List.mem_cons]
    constructor
    · rintro ⟨⟨hr, hi⟩, hall⟩
      refine ⟨hr, ?_⟩
      rintro ids' (rfl | h)
      · exact hi
      · exact hall ids' h
    · rintro ⟨hr, hall⟩
      exact ⟨⟨hr, hall ids (Or.inl rfl)⟩, fun ids' h => hall ids' (Or.inr h)⟩

theorem evalChildren_eq_map (db : Database) (cs : List SNode) :
    evalChildren db cs = cs.map (evaluateFilterTree db) := by
  induction cs with
  | nil => rfl
  | cons c cs ih => simp [evalChildren, ih]

theorem lineChildren_eq_map (db : Database) (line : LineRow) (cs : List SNode) :
    lineChildren db line cs = cs.map (lineMatchesFilter db line) := by
  induction cs with
  | nil => rfl
  | cons c cs ih => simp [lineChildren, ih]

/-! ## C3 -/

/-- C3, counterexample.  The claim asserts the internal marker `~empty~` is
not reachable as the value of a tokenized leaf and that no `isEmpty = false`
leaf serializes to the wire form of an `isEmpty` leaf.  But the input
`tag:~empty~` tokenizes (and parses) to a leaf with value `~empty~` and
`isEmpty = false`, and that leaf serializes to exactly the same wire form as
the `isEmpty` leaf produced by `tag:-`. -/
theorem sentinel_marker_cex :
    tokenize "tag:~empty~" = [.filter "tag" "~empty~" false, .eof] ∧
    parseTokens (tokenize "tag:~empty~") = some (CNode.filter "tag" "~empty~" false) ∧
    serializeFilterNode (CNode.filter "tag" "~empty~" false) =
      serializeFilterNode (CNode.filter "tag" "-" true) :=
  ⟨by decide, rfl, rfl⟩

/-- C3, amended.  For every leaf whose `isEmpty` flag is false and whose
value differs from the marker `~empty~`, the serialized wire form differs
from the wire form of every `isEmpty` leaf; the marker itself, however, is
reachable as a literal user value (see the counterexample), in which case
the two wire forms coincide. -/
theorem sentinel_marker_amended (f v f' v' : String) (h : v ≠ "~empty~") :
    serializeFilterNode (.filter f v false) ≠ serializeFilterNode (.filter f' v' true) := by
  simp [serializeFilterNode, h]

/-- Witness for `sentinel_marker_amended` at a concrete leaf pair. -/
theorem sentinel_marker_amended_witness :
    serializeFilterNode (.filter "tag" "Food" false) ≠
      serializeFilterNode (.filter "tag" "-" true) :=
  sentinel_marker_amended "tag" "Food" "tag" "-" (by decide)

/-! ## C5 -/

/-- C5.  AND binds tighter than OR: for any three filter leaves `a`, `b`,
`c`, parsing the token sequence `a and b or c` yields
`Or{And{a, b}, c}`, not `And{a, Or{b, c}}`. -/
theorem parser_precedence (f1 v1 : String) (e1 : Bool) (f2 v2 : String) (e2 : Bool)
    (f3 v3 : String) (e3 : Bool) :
    parseTokens [.filter f1 v1 e1, .and, .filter f2 v2 e2, .or, .filter f3 v3 e3, .eof] =
      some (.group "or" [.group "and" [.filter f1 v1 e1, .filter f2 v2 e2],
        .filter f3 v3 e3]) :=
  rfl

/-! ## C7 -/

/-- C7.  A dangling trailing operator does not raise (the model is a total
function); `parseQuery "category:Food and"` resolves the missing right-hand
term to the documented fallback, an empty `Group{And, []}`, making the
overall tree `And{Leaf{category, Food}, Group{And, []}}`. -/
theorem dangling_operator_fallback :
    (parseQuery "category:Food and").filterTree =
      some (.group "and" [.filter "category" "Food" false, .group "and" []]) :=
  rfl

/-! ## C8 -/

/-- C8.  `Parser.parse` returns after one complete or-expression and silently
discards whatever follows: if the token after a leading expression (a leaf,
or a parenthesized leaf) is neither `and` nor `or`, the parse result is the
leading expression alone, whatever tokens follow it. -/
theorem parser_discards_trailing_tokens (fld v : String) (e : Bool)
    (fld2 v2 : String) (e2 : Bool) (t : Token)
    (rest : List Token) (h1 : t ≠ .and) (h2 : t ≠ .or) :
    parseTokens (.filter fld v e :: t :: rest) = some (.filter fld v e) ∧
    parseTokens (.lparen :: .filter fld v e :: .rparen :: t :: rest) =
      some (.filter fld v e) ∧
    parseTokens (.filter fld v e :: .and :: .filter fld2 v2 e2 :: t :: rest) =
      some (.group "and" [.filter fld v e, .filter fld2 v2 e2]) := by
  cases t <;>
    first
      | exact absurd rfl h1
      | exact absurd rfl h2
      | exact ⟨rfl, rfl, rfl⟩

/-- Witness for `parser_discards_trailing_tokens`: the juxtaposed input
`category:a tag:b` parses to the single leaf `category:a`, its second filter
token discarded without error. -/
theorem parser_discards_trailing_tokens_witness :
    parseTokens (tokenize "category:a tag:b") = some (.filter "category" "a" false) := by
  have ht : tokenize "category:a tag:b" =
      [.filter "category" "a" false, .filter "tag" "b" false, .eof] := by decide
  rw [ht]
  exact (parser_discards_trailing_tokens "category" "a" false "tag" "b" false
    (.filter "tag" "b" false) [.eof] (by decide) (by decide)).1

/-! ## C4 -/

theorem evaluateFilterTree_group_nil (db : Database) (op : Option String) :
    evaluateFilterTree db (.group op []) = [] := by
  rw [evaluateFilterTree]
  simp

theorem evaluateFilterTree_group_or (db : Database) (cs : List SNode) (h : cs ≠ []) :
    evaluateFilterTree db (.group (some "or") cs) =
      dedupFirst ((cs.map (evaluateFilterTree db)).flatten) := by
  have hlen : 0 < cs.length := List.length_pos.mpr h
  rw [evaluateFilterTree, evalChildren_eq_map]
  simp [hlen]

theorem evaluateFilterTree_group_and (db : Database) (op : Option String) (c0 : SNode)
    (cs' : List SNode) (hop : op ≠ some "or") :
    evaluateFilterTree db (.group op (c0 :: cs')) =
      (cs'.map (evaluateFilterTree db)).foldl
        (fun result ids => result.filter (fun i => ids.contains i))
        (evaluateFilterTree db c0) := by
  rw [evaluateFilterTree, evalChildren_eq_map]
  simp [hop]

/-- C4.  Group semantics of the evaluator: with at least one child, an `And`
group resolves to the intersection of its children's resolved ID sets and an
`Or` group to their union; a group with zero children resolves to the empty
set (whatever its operator), not to the set of all records. -/
theorem evaluator_group_semantics (db : Database) (cs : List SNode) (op : Option String)
    (x : Nat) (h : cs ≠ []) :
    (x ∈ evaluateFilterTree db (.group (some "and") cs) ↔
      ∀ c ∈ cs, x ∈ evaluateFilterTree db c) ∧
    (x ∈ evaluateFilterTree db (.group (some "or") cs) ↔
      ∃ c ∈ cs, x ∈ evaluateFilterTree db c) ∧
    evaluateFilterTree db (.group op []) = [] := by
  refine ⟨?_, ?_, evaluateFilterTree_group_nil db op⟩
  · obtain ⟨c0, cs', rfl⟩ : ∃ c0 cs', cs = c0 :: cs' := by
      cases cs with
      | nil => exact absurd rfl h
      | cons c0 cs' => exact ⟨c0, cs', rfl⟩
    rw [evaluateFilterTree_group_and db (some "and") c0 cs' (by decide), mem_interFold]
    simp only [List.forall_mem_cons]
    constructor
    · rintro ⟨h0, hall⟩
      refine ⟨h0, fun c hc => hall (evaluateFilterTree db c) (List.mem_map_of_mem _ hc)⟩
    · rintro ⟨h0, hall⟩
      refine ⟨h0, fun ids hid => ?_⟩
      obtain ⟨c, hc, rfl⟩ := List.mem_map.mp hid
      exact hall c hc
  · rw [evaluateFilterTree_group_or db cs h]
    simp only [mem_dedupFirst, List.mem_flatten, List.mem_map]
    constructor
    · rintro ⟨l, ⟨c, hc, rfl⟩, hx⟩
      exact ⟨c, hc, hx⟩
    · rintro ⟨c, hc, hx⟩
      exact ⟨evaluateFilterTree db c, ⟨c, hc, rfl⟩, hx⟩

/-- The spec's fixture store: transactions 1, 2, 3; 1 and 2 have a line in
category `Food`; 2 and 3 carry tag `Travel`. -/
def dbGroups : Database :=
  ⟨[⟨1, 0, 1, none, none, "posted"⟩, ⟨2, 0, 1, none, none, "posted"⟩,
      ⟨3, 0, 1, none, none, "posted"⟩],
    [⟨1, 1, some 10⟩, ⟨2, 2, some 10⟩],
    [⟨10, "Food"⟩],
    [⟨20, "Travel", none⟩],
    [⟨1, "Checking"⟩],
    [⟨2, 20⟩, ⟨3, 20⟩]⟩

/-- The children `category:Food`, `tag:Travel` in wire form. -/
def csGroups : List SNode :=
  [.filter (some "category") (some "Food"), .filter (some "tag") (some "Travel")]

/-- Witness for `evaluator_group_semantics` on the fixture store, together
with the concrete set algebra: `and` yields `{2}`, `or` yields `{1,2,3}`. -/
theorem evaluator_group_semantics_witness :
    ((2 ∈ evaluateFilterTree dbGroups (.group (some "and") csGroups) ↔
      ∀ c ∈ csGroups, 2 ∈ evaluateFilterTree dbGroups c) ∧
     (2 ∈ evaluateFilterTree dbGroups (.group (some "or") csGroups) ↔
      ∃ c ∈ csGroups, 2 ∈ evaluateFilterTree dbGroups c) ∧
     evaluateFilterTree dbGroups (.group (some "and") []) = []) ∧
    evaluateFilterTree dbGroups (.group (some "and") csGroups) = [2] ∧
    evaluateFilterTree dbGroups (.group (some "or") csGroups) = [1, 2, 3] :=
  ⟨evaluator_group_semantics dbGroups csGroups (some "and") 2 (by simp [csGroups]),
    by decide, by decide⟩

/-! ## C6 -/

/-- C6.  Line matcher semantics: non-`category` leaves (including `tag`,
`account`, `counterparty`) are vacuously true at line granularity; a
`category` leaf carrying the wire-encoded empty sentinel matches exactly the
lines without a category reference; a textual `category` leaf matches
exactly the lines whose category reference is to a category whose name
contains the value; nonempty `and` groups require all children and nonempty
`or` groups at least one. -/
theorem line_matcher_semantics (db : Database) (line : LineRow) :
    (∀ f v, f ≠ some "category" → lineMatchesFilter db line (.filter f v) = true) ∧
    (lineMatchesFilter db line (.filter (some "category") (some "~empty~")) = true ↔
      line.category_id = none) ∧
    (∀ v, v ≠ "~empty~" →
      (lineMatchesFilter db line (.filter (some "category") (some v)) = true ↔
        ∃ c ∈ db.categories, line.category_id = some c.id ∧ likeContains v c.name = true)) ∧
    (∀ cs, cs ≠ [] →
      lineMatchesFilter db line (.group (some "and") cs) =
        cs.all (fun c => lineMatchesFilter db line c) ∧
      lineMatchesFilter db line (.group (some "or") cs) =
        cs.any (fun c => lineMatchesFilter db line c)) := by
  have hall : ∀ (g : SNode → Bool) (l : List SNode),
      (l.map g).all (fun r => r) = l.all g := by
    intro g l
    induction l with
    | nil => rfl
    | cons a l ih => simp [ih]
  have hany : ∀ (g : SNode → Bool) (l : List SNode),
      (l.map g).any (fun r => r) = l.any g := by
    intro g l
    induction l with
    | nil => rfl
    | cons a l ih => simp [ih]
  refine ⟨?_, ?_, ?_, ?_⟩
  · intro f v hf
    rw [lineMatchesFilter, if_neg hf]
  · rw [lineMatchesFilter, if_pos rfl]
    simp only [Option.getD_some]
    rw [lineMatchesCategoryFilter, if_pos rfl]
    simp [Option.isNone_iff_eq_none]
  · intro v hv
    rw [lineMatchesFilter, if_pos rfl]
    simp only [Option.getD_some]
    rw [lineMatchesCategoryFilter, if_neg hv]
    cases hci : line.category_id with
    | none => simp
    | some cid =>
      have hc : ∀ (ids : List Nat) (y : Nat), (ids.contains y = true) ↔ y ∈ ids :=
        fun ids y => List.elem_iff
      simp only [hc, List.mem_map, List.mem_filter, Option.some.injEq]
      constructor
      · rintro ⟨c, ⟨hmem, hlike⟩, rfl⟩
        exact ⟨c, hmem, rfl, hlike⟩
      · rintro ⟨c, hmem, hcid, hlike⟩
        exact ⟨c, ⟨hmem, hlike⟩, hcid.symm⟩
  · intro cs hcs
    have hlen : 0 < cs.length := List.length_pos.mpr hcs
    constructor
    · simp only [lineMatchesFilter, lineChildren_eq_map, if_pos hlen]
      rw [if_neg (show ¬ (some "and" : Option String) = some "or" from by decide), hall]
    · simp only [lineMatchesFilter, lineChildren_eq_map, if_pos hlen]
      simp [hany]

/-- A one-category store and a line without a category reference, for the
line-matcher witness. -/
def dbLines : Database := ⟨[], [], [⟨10, "Food"⟩], [], [], []⟩

/-- A transaction line with no category reference. -/
def lineNoCat : LineRow := ⟨1, 1, none⟩

/-- Witness for `line_matcher_semantics`: `category:-` serializes to the
`~empty~` wire leaf, which the no-category line matches, while the same line
fails `category:Food`; `tag`/`account`/`counterparty` leaves are vacuously
true. -/
theorem line_matcher_semantics_witness :
    Option.map serializeFilterNode (parseTokens (tokenize "category:-")) =
      some (SNode.filter (some "category") (some "~empty~")) ∧
    (lineMatchesFilter dbLines lineNoCat (.filter (some "category") (some "~empty~")) = true ↔
      lineNoCat.category_id = none) ∧
    lineMatchesFilter dbLines lineNoCat (.filter (some "category") (some "~empty~")) = true ∧
    (lineMatchesFilter dbLines lineNoCat (.filter (some "category") (some "Food")) = true ↔
      ∃ c ∈ dbLines.categories,
        lineNoCat.category_id = some c.id ∧ likeContains "Food" c.name = true) ∧
    lineMatchesFilter dbLines lineNoCat (.filter (some "category") (some "Food")) = false ∧
    lineMatchesFilter dbLines lineNoCat (.filter (some "counterparty") (some "amazon")) = true :=
  ⟨rfl, (line_matcher_semantics dbLines lineNoCat).2.1, by decide,
    (line_matcher_semantics dbLines lineNoCat).2.2.1 "Food" (by decide), by decide,
    (line_matcher_semantics dbLines lineNoCat).1 (some "counterparty") (some "amazon")
      (by decide)⟩

/-! ## C2 -/

mutual

/-- No leaf of the tree has its `isEmpty` flag set. -/
def noEmptyLeaf : CNode → Bool
  | .filter _ _ e => !e
  | .group _ cs => noEmptyLeafList cs

/-- `noEmptyLeaf` over a children list. -/
def noEmptyLeafList : List CNode → Bool
  | [] => true
  | c :: cs => noEmptyLeaf c && noEmptyLeafList cs

end

mutual

theorem serialize_eq_inject_of_noEmpty :
    ∀ (t : CNode), noEmptyLeaf t = true → serializeFilterNode t = injectClientNode t
  | .filter f v e, h => by
    rw [noEmptyLeaf, Bool.not_eq_true'] at h
    subst h
    rfl
  | .group op cs, h => by
    rw [noEmptyLeaf] at h
    rw [serializeFilterNode, injectClientNode,
      serializeList_eq_injectList_of_noEmpty cs h]
  termination_by structural t => t

theorem serializeList_eq_injectList_of_noEmpty :
    ∀ (cs : List CNode), noEmptyLeafList cs = true →
      serializeNodeList cs = injectClientNodeList cs
  | [], _ => rfl
  | c :: cs, h => by
    rw [noEmptyLeafList, Bool.and_eq_true] at h
    rw [serializeNodeList, injectClientNodeList,
      serialize_eq_inject_of_noEmpty c h.1, serializeList_eq_injectList_of_noEmpty cs h.2]
  termination_by structural cs => cs

end

/-- A store distinguishing the literal value `-` from the empty sentinel: a
tag named `a-b` (whose name contains `-`), transaction 2 tagged with it, and
transaction 1 untagged. -/
def dbRoundtrip : Database :=
  ⟨[⟨1, 0, 1, none, none, "posted"⟩, ⟨2, 0, 1, none, none, "posted"⟩],
    [], [], [⟨5, "a-b", none⟩], [⟨1, "Checking"⟩], [⟨2, 5⟩]⟩

/-- C2, counterexample.  The round-trip law fails at the input `tag:-`: the
parsed tree is the `isEmpty` leaf with value `-`; its serialized transport
form carries `~empty~` and evaluates (on `dbRoundtrip`) to the untagged
transaction `{1}`, while the original tree — as the evaluator reads it,
value `-` — evaluates to `{2}` (substring match on the tag name `a-b`).
The two trees are therefore not operationally equivalent: evaluation
results differ on this store. -/
theorem roundtrip_cex :
    parseTokens (tokenize "tag:-") = some (CNode.filter "tag" "-" true) ∧
    evaluateFilterTree dbRoundtrip (serializeFilterNode (CNode.filter "tag" "-" true)) = [1] ∧
    evaluateFilterTree dbRoundtrip (injectClientNode (CNode.filter "tag" "-" true)) = [2] :=
  ⟨rfl, by decide, by decide⟩

/-- C2, amended.  For every tree with no `isEmpty` leaf, serialization
followed by deserialization is the identity on what the evaluator reads —
field, value, operator and child order are preserved exactly — so the
round-tripped tree evaluates identically to the original on every store.
(`isEmpty` leaves are re-encoded `-` → `~empty~`, which the receiving side
evaluates as the empty-dimension filter, not as the literal `-`; see the
counterexample.) -/
theorem roundtrip_amended (t : CNode) (db : Database) (h : noEmptyLeaf t = true) :
    serializeFilterNode t = injectClientNode t ∧
    evaluateFilterTree db (serializeFilterNode t) =
      evaluateFilterTree db (injectClientNode t) := by
  have he := serialize_eq_inject_of_noEmpty t h
  exact ⟨he, by rw [he]⟩

/-- A sentinel-free tree (the parse of `category:Food and tag:x`). -/
def tNoEmpty : CNode :=
  .group "and" [.filter "category" "Food" false, .filter "tag" "x" false]

/-- Witness for `roundtrip_amended` at a concrete sentinel-free tree and
store. -/
theorem roundtrip_amended_witness :
    noEmptyLeaf tNoEmpty = true ∧
    (serializeFilterNode tNoEmpty = injectClientNode tNoEmpty ∧
      evaluateFilterTree dbRoundtrip (serializeFilterNode tNoEmpty) =
        evaluateFilterTree dbRoundtrip (injectClientNode tNoEmpty)) :=
  ⟨rfl, roundtrip_amended tNoEmpty dbRoundtrip rfl⟩

/-! ## C9 -/

/-- C9.  Fail-closed on unknown leaf fields: a deserialized leaf whose field
is not one of the four known ones resolves to the empty ID set, and a
`findAll` request whose decoded tree is such a leaf — or an `and` group
containing one — returns zero transactions rather than all of them. -/
theorem unknown_field_fail_closed (dec : String → Option SNode) (db : Database)
    (f0 : TransactionFilter) (s : String) (tree : SNode) (fld : Option String)
    (v : Option String) (cs : List SNode)
    (hs : f0.filter_expr = some s) (hne : s ≠ "") (hdec : dec s = some tree)
    (hshape : tree = .filter fld v ∨ (tree = .group (some "and") cs ∧ .filter fld v ∈ cs))
    (hf : fld ∉ ([some "category", some "tag", some "account", some "counterparty"] :
      List (Option String))) :
    evaluateFilterNode db fld v = [] ∧
    (findAll dec db f0).items = [] ∧ (findAll dec db f0).meta.total = 0 := by
  simp only [List.mem_cons, List.mem_singleton, not_or] at hf
  obtain ⟨h1, h2, h3, h4, _⟩ := hf
  have hnode : evaluateFilterNode db fld v = [] := by
    rw [evaluateFilterNode, if_neg h1, if_neg h2, if_neg h3, if_neg h4]
  have heval : evaluateFilterTree db tree = [] := by
    rcases hshape with rfl | ⟨rfl, hmem⟩
    · rw [evaluateFilterTree]
      exact hnode
    · obtain ⟨c0, cs', rfl⟩ : ∃ c0 cs', cs = c0 :: cs' := by
        cases cs with
        | nil => cases hmem
        | cons c0 cs' => exact ⟨c0, cs', rfl⟩
      rw [evaluateFilterTree_group_and db (some "and") c0 cs' (by decide),
        List.eq_nil_iff_forall_not_mem]
      intro x hx
      rw [mem_interFold] at hx
      obtain ⟨hx0, hall⟩ := hx
      rcases List.mem_cons.mp hmem with rfl | hmem'
      · rw [show evaluateFilterTree db (SNode.filter fld v) = evaluateFilterNode db fld v
            from rfl, hnode] at hx0
        cases hx0
      · have := hall (evaluateFilterTree db (.filter fld v))
          (List.mem_map_of_mem _ hmem')
        rw [show evaluateFilterTree db (SNode.filter fld v) = evaluateFilterNode db fld v
            from rfl, hnode] at this
        cases this
  have hres : findAll dec db f0 = ⟨[], ⟨0, f0.page.getD 1, f0.limit.getD 50, 0⟩⟩ := by
    rw [findAll, hs]
    simp only [if_neg hne, hdec, heval, List.length_nil]
    simp
  exact ⟨hnode, by rw [hres], by rw [hres]⟩

/-- A decoder handing back a leaf with the unknown field `vendor`, a filter
carrying a nonempty `filter_expr`, for the fail-closed witness. -/
def decW9 : String → Option SNode := fun _ => some (.filter (some "vendor") (some "x"))

/-- A request whose `filter_expr` is present and nonempty. -/
def tfW9 : TransactionFilter := { filter_expr := some "q" }

/-- Witness for `unknown_field_fail_closed` on the fixture store. -/
theorem unknown_field_fail_closed_witness :
    evaluateFilterNode dbGroups (some "vendor") (some "x") = [] ∧
    (findAll decW9 dbGroups tfW9).items = [] ∧
    (findAll decW9 dbGroups tfW9).meta.total = 0 :=
  unknown_field_fail_closed decW9 dbGroups tfW9 "q" (.filter (some "vendor") (some "x"))
    (some "vendor") (some "x") [] rfl (by decide) rfl (Or.inl rfl) (by decide)

/-! ## C10 -/

/-- C10.  Fail-open on undecodable trees: when the `filter_expr` parameter is
present but does not decode (`JSON.parse` throws, modelled by the decoder
returning `none`), `findAll` does not raise and returns exactly what it
returns with no `filter_expr` at all — the remaining conditions (status,
date bounds, legacy parameters) alone constrain the result. -/
theorem invalid_filter_expr_fail_open (dec : String → Option SNode) (db : Database)
    (f0 : TransactionFilter) (s : String) (hdec : dec s = none) :
    findAll dec db { f0 with filter_expr := some s } =
      findAll dec db { f0 with filter_expr := none } := by
  rw [findAll, findAll]
  by_cases hs : s = "" <;> simp [hs, hdec]

/-- The always-failing decoder (every string is treated as unparseable). -/
def decNone : String → Option SNode := fun _ => none

/-- A request constraining only the status. -/
def tfStatus : TransactionFilter := { status := some "posted" }

/-- Witness for `invalid_filter_expr_fail_open` at a concrete store and
request. -/
theorem invalid_filter_expr_fail_open_witness :
    decNone "oops" = none ∧
    findAll decNone dbGroups { tfStatus with filter_expr := some "oops" } =
      findAll decNone dbGroups { tfStatus with filter_expr := none } :=
  ⟨rfl, invalid_filter_expr_fail_open decNone dbGroups tfStatus "oops" rfl⟩

/-! ## C1 -/

theorem matchValue_nonspace (c : Char) (v' : List Char)
    (h2 : ∀ x ∈ c :: v', jsSpace x = false) (h3 : c ≠ '"') :
    matchValue (c :: v') = some (c :: v', []) := by
  have hp : ∀ x ∈ c :: v', (!jsSpace x) = true := by
    intro x hx
    rw [h2 x hx]
    rfl
  have hunq : matchUnquoted (c :: v') = some (c :: v', []) := by
    rw [matchUnquoted]
    rw [List.takeWhile_eq_self_iff.mpr hp, List.dropWhile_eq_nil_iff.mpr hp]
    rfl
  rw [matchValue.eq_def]
  split
  · rename_i cs2 heq
    injection heq with hc _
    exact absurd hc h3
  · exact hunq

theorem tokenizeSteps_account (fuel : Nat) (c : Char) (v' : List Char)
    (h2 : ∀ x ∈ c :: v', jsSpace x = false) (h3 : c ≠ '"') :
    tokenizeSteps (fuel + 2) ("account:".toList ++ c :: v') =
      [.filter "account" (String.mk (c :: v')) (decide (String.mk (c :: v') = "-")), .eof] := by
  have htry : tryFilterTok ("account:".toList ++ c :: v') =
      some (.filter "account" (String.mk (c :: v'))
        (decide (String.mk (c :: v') = "-")), []) := by
    have hstep : tryFilterTok ("account:".toList ++ c :: v') =
        (match matchValue (c :: v') with
          | none => none
          | some (v, rest2) =>
            some (.filter "account" (String.mk v) (decide (String.mk v = "-")), rest2)) := rfl
    rw [hstep, matchValue_nonspace c v' h2 h3]
  have h1 : tokenizeSteps (fuel + 2) ("account:".toList ++ c :: v') =
      (match tryFilterTok ("account:".toList ++ c :: v') with
        | some (t, r) => t :: tokenizeSteps (fuel + 1) r
        | none => tokenizeSteps (fuel + 1)
            ('c' :: 'c' :: 'o' :: 'u' :: 'n' :: 't' :: ':' :: c :: v')) := rfl
  rw [h1, htry]
  rfl

theorem tokenizeSteps_tag (fuel : Nat) (c : Char) (v' : List Char)
    (h2 : ∀ x ∈ c :: v', jsSpace x = false) (h3 : c ≠ '"') :
    tokenizeSteps (fuel + 2) ("tag:".toList ++ c :: v') =
      [.filter "tag" (String.mk (c :: v')) (decide (String.mk (c :: v') = "-")), .eof] := by
  have htry : tryFilterTok ("tag:".toList ++ c :: v') =
      some (.filter "tag" (String.mk (c :: v'))
        (decide (String.mk (c :: v') = "-")), []) := by
    have hstep : tryFilterTok ("tag:".toList ++ c :: v') =
        (match matchValue (c :: v') with
          | none => none
          | some (v, rest2) =>
            some (.filter "tag" (String.mk v) (decide (String.mk v = "-")), rest2)) := rfl
    rw [hstep, matchValue_nonspace c v' h2 h3]
  have h1 : tokenizeSteps (fuel + 2) ("tag:".toList ++ c :: v') =
      (match tryFilterTok ("tag:".toList ++ c :: v') with
        | some (t, r) => t :: tokenizeSteps (fuel + 1) r
        | none => tokenizeSteps (fuel + 1) ('a' :: 'g' :: ':' :: c :: v')) := rfl
  rw [h1, htry]
  rfl

theorem tokenizeSteps_category (fuel : Nat) (c : Char) (v' : List Char)
    (h2 : ∀ x ∈ c :: v', jsSpace x = false) (h3 : c ≠ '"') :
    tokenizeSteps (fuel + 2) ("category:".toList ++ c :: v') =
      [.filter "category" (String.mk (c :: v')) (decide (String.mk (c :: v') = "-")), .eof] := by
  have htry : tryFilterTok ("category:".toList ++ c :: v') =
      some (.filter "category" (String.mk (c :: v'))
        (decide (String.mk (c :: v') = "-")), []) := by
    have hstep : tryFilterTok ("category:".toList ++ c :: v') =
        (match matchValue (c :: v') with
          | none => none
          | some (v, rest2) =>
            some (.filter "category" (String.mk v) (decide (String.mk v = "-")), rest2)) := rfl
    rw [hstep, matchValue_nonspace c v' h2 h3]
  have h1 : tokenizeSteps (fuel + 2) ("category:".toList ++ c :: v') =
      (match tryFilterTok ("category:".toList ++ c :: v') with
        | some (t, r) => t :: tokenizeSteps (fuel + 1) r
        | none => tokenizeSteps (fuel + 1)
            ('a' :: 't' :: 'e' :: 'g' :: 'o' :: 'r' :: 'y' :: ':' :: c :: v')) := rfl
  rw [h1, htry]
  rfl

/-- C1, counterexample.  The claim names four recognized field names
including `counterparty` and embedded escaped quotes `""` inside quoted
values, and predicts in particular that `counterparty:amazon` yields a
`counterparty` filter token and that `category:"a""b"` yields one token
whose value contains a quote.  The tokenizer's regex knows only
`category|tag|account` and stops a quoted value at the first quote:
`counterparty:amazon` yields no token at all, and `category:"a""b"` yields
exactly one token with value `a` (the trailing `"b"` is skipped). -/
theorem tokenizer_fourth_field_cex :
    tokenize "counterparty:amazon" = [.eof] ∧
    tokenize "category:\"a\"\"b\"" = [.filter "category" "a" false, .eof] :=
  ⟨by decide, by decide⟩

/-- C1, amended.  `tokenize` produces a Filter token for `field:value` where
`field` is one of the three names `category`, `tag`, `account`
(case-insensitively; `counterparty` is not recognized and
`counterparty:amazon` yields no token), and `value` is either a
double-quoted run of one or more non-quote characters (no embedded-quote
escapes: `category:"a""b"` yields the single value `a`) or an unquoted run
of non-whitespace characters; the captured value is compared literally to
`-` to set `isEmpty`.  The three quantified conjuncts state the unquoted
case in full generality for each recognized field. -/
theorem tokenizer_amended (c : Char) (v' : List Char)
    (h2 : ∀ x ∈ c :: v', jsSpace x = false) (h3 : c ≠ '"') :
    tokenize (String.mk ("account:".toList ++ c :: v')) =
      [.filter "account" (String.mk (c :: v')) (decide (String.mk (c :: v') = "-")), .eof] ∧
    tokenize (String.mk ("tag:".toList ++ c :: v')) =
      [.filter "tag" (String.mk (c :: v')) (decide (String.mk (c :: v') = "-")), .eof] ∧
    tokenize (String.mk ("category:".toList ++ c :: v')) =
      [.filter "category" (String.mk (c :: v')) (decide (String.mk (c :: v') = "-")), .eof] ∧
    tokenize "counterparty:amazon" = [.eof] ∧
    tokenize "category:\"a\"\"b\"" = [.filter "category" "a" false, .eof] ∧
    tokenize "CATEGORY:Food AND TAG:trip" =
      [.filter "category" "Food" false, .and, .filter "tag" "trip" false, .eof] ∧
    tokenize "category:\"Office Supplies\"" =
      [.filter "category" "Office Supplies" false, .eof] ∧
    tokenize "tag:-" = [.filter "tag" "-" true, .eof] :=
  by
  refine ⟨?_, ?_, ?_, by decide, by decide, by decide, by decide, by decide⟩
  · have hfuel : (String.mk ("account:".toList ++ c :: v')).length + 1 = (v'.length + 8) + 2 := by
      have h8 : ("account:".toList).length = 8 := rfl
      show ("account:".toList ++ c :: v').length + 1 = _
      rw [List.length_append, h8, List.length_cons]
      omega
    rw [tokenize, hfuel]
    exact tokenizeSteps_account (v'.length + 8) c v' h2 h3
  · have hfuel : (String.mk ("tag:".toList ++ c :: v')).length + 1 = (v'.length + 4) + 2 := by
      have h4 : ("tag:".toList).length = 4 := rfl
      show ("tag:".toList ++ c :: v').length + 1 = _
      rw [List.length_append, h4, List.length_cons]
      omega
    rw [tokenize, hfuel]
    exact tokenizeSteps_tag (v'.length + 4) c v' h2 h3
  · have hfuel : (String.mk ("category:".toList ++ c :: v')).length + 1 = (v'.length + 9) + 2 := by
      have h9 : ("category:".toList).length = 9 := rfl
      show ("category:".toList ++ c :: v').length + 1 = _
      rw [List.length_append, h9, List.length_cons]
      omega
    rw [tokenize, hfuel]
    exact tokenizeSteps_category (v'.length + 9) c v' h2 h3

/-- Witness for `tokenizer_amended` at the concrete value `amazon`. -/
theorem tokenizer_amended_witness :
    tokenize "account:amazon" = [.filter "account" "amazon" false, .eof] ∧
    tokenize "tag:-" = [.filter "tag" "-" true, .eof] :=
  ⟨(tokenizer_amended 'a' "mazon".toList (by decide) (by decide)).1,
    (tokenizer_amended 'a' "mazon".toList (by decide) (by decide)).2.2.2.2.2.2.2⟩
